import Mathlib

/-!
# web3driver: challenge-response login

A shallow embedding of the authentication core of the `web3driver` server
(`utils/crypto.go`, `middleware/auth.go`, `config/config.go` and the `login`
handler of `main.go`), followed by the properties established about it.

Conventions of the embedding:

* a Go `string` or `[]byte` is the list of its bytes (`Bytes`), every byte a
  natural number below 256; `len` is `List.length`;
* third-party libraries (go-ethereum `crypto`, `golang-jwt`) are not part of the
  repository: the functions called from them are fields of the structures
  `CryptoLib` and `JwtLib`, and every result is stated for an arbitrary library
  (two small stand-in libraries serve for worked examples only);
* a run-time panic (index out of range) is an explicit outcome;
* the relational store is a list of `users` rows passed explicitly, together
  with two flags saying whether the driver fails reads or writes;
* time is the clock reading in whole seconds (Unix time), the precision at which the
  JWT library records the `exp` claim and compares it with the clock.
-/

set_option maxRecDepth 8000

namespace Web3Driver

/-! ## Byte strings and the Go standard library functions used by the source -/

/-- A Go `string` / `[]byte`: the list of its bytes. -/
abbrev Bytes := List Nat

/-- Every element is a byte value. -/
def IsBytes (bs : Bytes) : Prop := ∀ b ∈ bs, b < 256

/-- The bytes of an ASCII literal of the source. -/
def ascii (s : String) : Bytes := s.toList.map Char.toNat

/-- Go `strings.HasPrefix(s, pfx)`: `len(s) >= len(pfx) && s[:len(pfx)] == pfx`. -/
def HasPrefix (s pfx : Bytes) : Bool :=
  decide (s.length ≥ pfx.length) && (s.take pfx.length == pfx)

/-- Go `encoding/hex` reverse table: the value of a hexadecimal digit, `none` for every
other byte. -/
def fromHexChar (c : Nat) : Option Nat :=
  if 48 ≤ c ∧ c ≤ 57 then some (c - 48)
  else if 97 ≤ c ∧ c ≤ 102 then some (c - 97 + 10)
  else if 65 ≤ c ∧ c ≤ 70 then some (c - 65 + 10)
  else none

/-- Go `hex.DecodeString`: two digits per byte, high nibble first; `none` stands for a
non-nil error (`InvalidByteError` for a byte that is no hex digit, `ErrLength` for an odd
number of digits). -/
def DecodeString : Bytes → Option Bytes
  | [] => some []
  | [_] => none
  | p :: q :: rest =>
    match fromHexChar p, fromHexChar q with
    | some a, some b =>
      match DecodeString rest with
      | some out => some ((a * 16 + b) :: out)
      | none => none
    | _, _ => none

/-- The digit table `"0123456789abcdef"` of Go `encoding/hex`. -/
def hexDigit (n : Nat) : Nat := if n < 10 then 48 + n else 87 + n

/-- Go `hex.EncodeToString`: lower-case digits, high nibble first. -/
def EncodeToString : Bytes → Bytes
  | [] => []
  | b :: bs => hexDigit (b / 16) :: hexDigit (b % 16) :: EncodeToString bs

/-- The digit loop of Go `fmt` for base 10 (`fmtInteger`): digits are written from the
end of the buffer, `next := u / 10; buf[i] = '0' + u - next*10`, until `u < 10`. The first
argument bounds the number of iterations. -/
def fmtIntegerLoop : Nat → Nat → Bytes → Bytes
  | 0, u, buf => (48 + u) :: buf
  | fuel + 1, u, buf =>
    if u ≥ 10 then fmtIntegerLoop fuel (u / 10) ((48 + u - (u / 10) * 10) :: buf)
    else (48 + u) :: buf

/-- Go `fmt.Sprintf("%d", u)` for a non-negative integer. -/
def fmtInteger (u : Nat) : Bytes := fmtIntegerLoop u u []

/-- The tail of Go `strings.EqualFold` taken once a byte of either string is not ASCII
(label `hasUnicode`): rune decoding and `unicode.SimpleFold`, whose tables are not in the
repository. -/
abbrev UnicodeFold := Bytes → Bytes → Bool

/-- Go `strings.EqualFold`: the ASCII fast path, byte by byte; `return len(s) == len(t)`
once one string is exhausted. -/
def EqualFold (uni : UnicodeFold) : Bytes → Bytes → Bool
  | sr :: s, tr :: t =>
    if sr ||| tr ≥ 128 then uni (sr :: s) (tr :: t)
    else if tr = sr then EqualFold uni s t
    else
      let lo := if tr < sr then tr else sr
      let hi := if tr < sr then sr else tr
      if 65 ≤ lo ∧ lo ≤ 90 ∧ hi = lo + 97 - 65 then EqualFold uni s t
      else false
  | [], [] => true
  | [], _ :: _ => false
  | _ :: _, [] => false

/-- Go `strings.Split(s, sep)` for a separator of one byte. -/
def Split (sep : Nat) : Bytes → List Bytes
  | [] => [[]]
  | b :: bs =>
    if b = sep then [] :: Split sep bs
    else
      match Split sep bs with
      | [] => [[b]]
      | p :: ps => (b :: p) :: ps

/-! ## `utils/crypto.go` -/

/-- The functions of `github.com/ethereum/go-ethereum/crypto` that `VerifySignature`
calls. `SigToPub` returns `none` where the library returns an error. `PubkeyToAddressHex`
is `crypto.PubkeyToAddress(pub).Hex()`. -/
structure CryptoLib where
  Keccak256Hash : Bytes → Bytes
  SigToPub : Bytes → Bytes → Option Bytes
  PubkeyToAddressHex : Bytes → Bytes
  unicodeFold : UnicodeFold

/-- `utils.VerifySignature(address, msg, sigHex)`, statement by statement; `none` is a
run-time panic (the index expression `sigBytes[64]` out of range). -/
def VerifySignature (L : CryptoLib) (address msg sigHex : Bytes) : Option Bool :=
  let sigHex := if HasPrefix sigHex (ascii "0x") then sigHex.drop 2 else sigHex
  match DecodeString sigHex with
  | none => some false
  | some sigBytes =>
    if sigBytes.length ≠ 65 then some false
    else
      match sigBytes.get? 64 with
      | none => none
      | some v =>
        let sigBytes := if v ≥ 27 then sigBytes.set 64 (v - 27) else sigBytes
        let pfx := ascii "\x19Ethereum Signed Message:\n" ++ fmtInteger msg.length
        let data := pfx ++ msg
        let hash := L.Keccak256Hash data
        match L.SigToPub hash sigBytes with
        | none => some false
        | some sigPublicKey =>
          let derivedAddress := L.PubkeyToAddressHex sigPublicKey
          some (EqualFold L.unicodeFold derivedAddress address)

/-- State of `VerifySignature` after steps 1 and 2 (decoding and the fix of `v`). -/
inductive SigPrep where
  | reject
  | fatal
  | ready (sigBytes : Bytes)
  deriving DecidableEq, Repr

/-- Steps 1 and 2 of `VerifySignature` on their own: strip `0x`, decode, require 65 bytes,
and `if sigBytes[64] >= 27 { sigBytes[64] -= 27 }`. `reject` is `return false`, `fatal` is
an index out of range, `ready` carries the bytes handed to `crypto.SigToPub`. -/
def prepareSignature (sigHex : Bytes) : SigPrep :=
  let sigHex := if HasPrefix sigHex (ascii "0x") then sigHex.drop 2 else sigHex
  match DecodeString sigHex with
  | none => .reject
  | some sigBytes =>
    if sigBytes.length ≠ 65 then .reject
    else
      match sigBytes.get? 64 with
      | none => .fatal
      | some v => .ready (if v ≥ 27 then sigBytes.set 64 (v - 27) else sigBytes)

/-- Step 3 of `VerifySignature` on its own: `[]byte(prefix + msg)` with `prefix :=
fmt.Sprintf("\x19Ethereum Signed Message:\n%d", len(msg))`, the bytes given to
`crypto.Keccak256Hash`. -/
def signedData (msg : Bytes) : Bytes :=
  (ascii "\x19Ethereum Signed Message:\n" ++ fmtInteger msg.length) ++ msg

/-- Steps 4 and 5 of `VerifySignature` on their own: recover the public key from the hash
of the signed data, derive the address and compare it with `strings.EqualFold`. -/
def recoverAndCompare (L : CryptoLib) (address msg sigBytes : Bytes) : Bool :=
  match L.SigToPub (L.Keccak256Hash (signedData msg)) sigBytes with
  | none => false
  | some sigPublicKey =>
    EqualFold L.unicodeFold (L.PubkeyToAddressHex sigPublicKey) address

/-! ## `models/tables.go` and the record store -/

/-- A row of table `users`: `models.User`. -/
structure User where
  Address : Bytes
  Nonce : Bytes
  deriving DecidableEq, Repr

/-- The `users` table behind the global `db` handle, with the behaviour of the driver:
`failRead` makes every query return an error, `failWrite` every write. -/
structure Store where
  users : List User
  failRead : Bool
  failWrite : Bool
  deriving DecidableEq, Repr

/-- GORM `db.First(&user, "address = ?", address)`: the row with that primary key, keys
being compared byte for byte; `none` is a non-nil `.Error` (`ErrRecordNotFound` or a
driver error). -/
def Store.First (st : Store) (address : Bytes) : Option User :=
  if st.failRead then none else st.users.find? (fun u => u.Address == address)

/-- GORM `db.Model(&user).Update("nonce", nonce)`: `UPDATE users SET nonce = ? WHERE
address = user.Address`. Returns the store afterwards and whether the write succeeded. -/
def Store.Update (st : Store) (user : User) (nonce : Bytes) : Store × Bool :=
  if st.failWrite then (st, false)
  else
    let rows := st.users.map
      (fun u => if u.Address == user.Address then { u with Nonce := nonce } else u)
    ({ st with users := rows }, true)

/-! ## `middleware/auth.go` -/

/-- `middleware.Claims`: the `address` claim and the registered `exp` claim (a pointer in
the library, hence optional), in seconds. The other registered claims are never set by
this program. -/
structure Claims where
  Address : Bytes
  ExpiresAt : Option Nat
  deriving DecidableEq, Repr

/-- The functions of `github.com/golang-jwt/jwt/v5` behind `token.SignedString` and
`jwt.ParseWithClaims` for `SigningMethodHS256`. `SignedString key claims` encodes and
signs (`none` is an error). `verify key token` parses the token, checks its MAC under
`key` and decodes the claims (`none` when any of these fails). -/
structure JwtLib where
  SignedString : Bytes → Claims → Option Bytes
  verify : Bytes → Bytes → Option Claims

/-- `var JwtKey = []byte("my_super_secret_key")`. -/
def JwtKey : Bytes := ascii "my_super_secret_key"

/-- `24 * time.Hour`, in seconds. -/
def tokenLifetime : Nat := 24 * 3600

/-- `middleware.GenerateJWT(address)` called when the clock reads `now`. -/
def GenerateJWT (J : JwtLib) (now : Nat) (address : Bytes) : Option Bytes :=
  let expirationTime := now + tokenLifetime
  let claims : Claims := { Address := address, ExpiresAt := some expirationTime }
  J.SignedString JwtKey claims

/-- `jwt.ParseWithClaims(token, claims, keyFunc)` with `keyFunc` returning `key`: the
library verifies the token and then validates the registered claims, rejecting an `exp`
that is not after `now`. `none` is `err != nil || !token.Valid`. -/
def ParseWithClaims (J : JwtLib) (key : Bytes) (now : Nat) (token : Bytes) : Option Claims :=
  match J.verify key token with
  | none => none
  | some claims =>
    match claims.ExpiresAt with
    | none => some claims
    | some exp => if now < exp then some claims else none

/-- What `AuthMiddleware` does with a request: abort it with a status and an error
message, or set `user_address` in the context and call the next handler. -/
inductive AuthOutcome where
  | abort (status : Nat) (error : String)
  | next (user_address : Bytes)
  deriving DecidableEq, Repr

/-- The handler returned by `middleware.AuthMiddleware()`, applied when the clock reads
`now` to a request whose `Authorization` header is `authHeader` (empty when absent). -/
def AuthMiddleware (J : JwtLib) (now : Nat) (authHeader : Bytes) : AuthOutcome :=
  if authHeader = [] then .abort 401 "Authorization header missing"
  else
    match Split 32 authHeader with
    | [p0, p1] =>
      if p0 ≠ ascii "Bearer" then .abort 401 "Invalid token format"
      else
        match ParseWithClaims J JwtKey now p1 with
        | none => .abort 401 "Invalid token"
        | some claims => .next claims.Address
    | _ => .abort 401 "Invalid token format"

/-! ## `config/config.go` -/

/-- The process environment: variable names with their values, first match wins. -/
abbrev Env := List (Bytes × Bytes)

/-- Go `os.LookupEnv(key)`. -/
def LookupEnv (env : Env) (key : Bytes) : Option Bytes :=
  (env.find? (fun kv => kv.1 == key)).map (fun kv => kv.2)

/-- `getEnv(key, fallback)`. -/
def getEnv (env : Env) (key fallback : Bytes) : Bytes :=
  match LookupEnv env key with
  | some value => value
  | none => fallback

/-- `config.Config`. -/
structure Config where
  ServerPort : Bytes
  DBDsn : Bytes
  JwtSecret : Bytes
  PinataJWT : Bytes
  deriving DecidableEq, Repr

/-- `godotenv.Load()`: the variables read from the `.env` file (`none` when the file cannot
be loaded, which the caller only logs) are added to the environment without overriding a
variable that is already set. -/
def godotenvLoad (dotenv : Option Env) (env : Env) : Env :=
  match dotenv with
  | none => env
  | some file => env ++ file

/-- `config.LoadConfig()`: the value assigned to `AppConfig`, or `error` where the
function ends the process with `log.Fatal` (the check of `DBDsn`). A missing `PINATA_JWT`
only logs a warning. -/
def LoadConfig (dotenv : Option Env) (env : Env) : Except String Config :=
  let env := godotenvLoad dotenv env
  let AppConfig : Config :=
    { ServerPort := getEnv env (ascii "SERVER_PORT") (ascii "8080")
      DBDsn := getEnv env (ascii "DB_DSN") []
      JwtSecret := getEnv env (ascii "JWT_SECRET") (ascii "unsafe_default_secret")
      PinataJWT := getEnv env (ascii "PINATA_JWT") [] }
  if AppConfig.DBDsn = [] then .error "DB_DSN is not configured"
  else .ok AppConfig

/-! ## `main.go`: the handlers -/

/-- The JSON body of a response. -/
inductive Body where
  | none
  | error (msg : String)
  | token (token : Bytes) (msg : String)
  deriving DecidableEq, Repr

/-- An HTTP response: status code and body. -/
structure Response where
  status : Nat
  body : Body
  deriving DecidableEq, Repr

/-- The request body of `POST /auth/login` once bound. -/
structure LoginRequest where
  Address : Bytes
  Signature : Bytes
  deriving DecidableEq, Repr

/-- Handler `login`. `body` is the result of `c.ShouldBindJSON(&req)` (`none` when binding
fails), `now` the clock. A panic of the handler is caught by the recovery middleware of
`gin.Default()`, which answers 500. The result of the final `Update` is not inspected. -/
def login (L : CryptoLib) (J : JwtLib) (now : Nat) (st : Store) (body : Option LoginRequest) :
    Response × Store :=
  match body with
  | none => (⟨400, .error "Invalid JSON format"⟩, st)
  | some req =>
    match st.First req.Address with
    | none =>
      (⟨404, .error "User not found or nonce expired. Please call /auth/nonce first."⟩, st)
    | some user =>
      match VerifySignature L req.Address user.Nonce req.Signature with
      | none => (⟨500, .none⟩, st)
      | some false => (⟨401, .error "Signature verification failed"⟩, st)
      | some true =>
        match GenerateJWT J now req.Address with
        | none => (⟨500, .error "Token generation failed"⟩, st)
        | some token =>
          let st1 := (st.Update user []).1
          (⟨200, .token token "Login successful"⟩, st1)

/-! ## Reference notions the properties are stated against -/

/-- Decimal rendering of a natural number as the specification words it: ASCII digits,
most significant first, no leading zero, `"0"` for zero. -/
def decimal (n : Nat) : Bytes :=
  if n = 0 then [48] else (Nat.digits 10 n).reverse.map (fun d => 48 + d)

/-- The number a string of ASCII digits denotes. -/
def decimalValue (bs : Bytes) : Nat := bs.foldl (fun acc c => 10 * acc + (c - 48)) 0

/-- The bytes of a text in UTF-8, the encoding of Go strings. -/
def utf8 (s : String) : Bytes := s.toUTF8.data.toList.map UInt8.toNat

/-- A hexadecimal digit of either case. -/
def IsHexDigit (c : Nat) : Prop :=
  (48 ≤ c ∧ c ≤ 57) ∨ (97 ≤ c ∧ c ≤ 102) ∨ (65 ≤ c ∧ c ≤ 70)

/-- A valid hexadecimal encoding of exactly 65 bytes: 130 hexadecimal digits. -/
def IsHex65 (s : Bytes) : Prop := s.length = 130 ∧ ∀ c ∈ s, IsHexDigit c

/-- Removal of one optional leading `0x`. -/
def strip0x : Bytes → Bytes
  | 48 :: 120 :: rest => rest
  | s => s

/-- ASCII lower-casing of a byte string. -/
def lowerAscii (s : Bytes) : Bytes := s.map (fun c => if 65 ≤ c ∧ c ≤ 90 then c + 32 else c)

/-- The value a variable has for the process once the `.env` file is taken into account,
stated on the environment and the file separately: the value in the environment when the
variable is set there, otherwise the value in the file when there is a file that sets it,
otherwise none. -/
def effectiveValue (dotenv : Option Env) (env : Env) (key : Bytes) : Option Bytes :=
  match env.lookup key with
  | some value => some value
  | none =>
    match dotenv with
    | none => none
    | some file => file.lookup key

/-! ## A stand-in library for worked examples -/

/-- A small stand-in for the crypto library, used only to exhibit inputs that meet the
hypotheses of the theorems below: the digest is the sum of the data modulo 256, recovery
succeeds exactly for a recovery id 0 or 1 and yields as key the first byte of the signature
plus the digest modulo 256, and the address of a key is `0x` followed by its hexadecimal
digits. -/
def demoCrypto : CryptoLib where
  Keccak256Hash := fun data => [data.sum % 256]
  SigToPub := fun hash sig =>
    if sig.getD 64 2 < 2 then some [(sig.getD 0 0 + hash.getD 0 0) % 256] else none
  PubkeyToAddressHex := fun pub => ascii "0x" ++ EncodeToString pub
  unicodeFold := fun _ _ => false

/-- A small stand-in for the JWT library: a token is the key in hexadecimal, a dot, the
expiry in decimal, a dot and the address in hexadecimal; verification splits the token at
the dots, compares the key and decodes the other two parts. -/
def demoJwt : JwtLib where
  SignedString := fun key claims =>
    some (EncodeToString key ++ [46] ++ fmtInteger (claims.ExpiresAt.getD 0) ++ [46]
      ++ EncodeToString claims.Address)
  verify := fun key token =>
    match Split 46 token with
    | [k, e, a] =>
      if k = EncodeToString key then
        match DecodeString a with
        | some address => some { Address := address, ExpiresAt := some (decimalValue e) }
        | none => none
      else none
    | _ => none

/-! ## Decimal formatting -/

theorem decimal_of_lt_ten (u : Nat) (h : u < 10) : decimal u = [48 + u] := by
  unfold decimal
  by_cases h0 : u = 0
  · simp [h0]
  · have hpos : 0 < u := Nat.pos_of_ne_zero h0
    simp [h0, Nat.digits_def' (by norm_num : 1 < 10) hpos, Nat.mod_eq_of_lt h,
      Nat.div_eq_of_lt h]

theorem decimal_step (u : Nat) (h : 10 ≤ u) :
    decimal u = decimal (u / 10) ++ [48 + u % 10] := by
  have hpos : 0 < u := by omega
  have hq : u / 10 ≠ 0 := by omega
  have hu : u ≠ 0 := by omega
  unfold decimal
  simp [hq, hu, Nat.digits_def' (by norm_num : 1 < 10) hpos]

theorem fmtIntegerLoop_eq (fuel : Nat) :
    ∀ (u : Nat) (buf : Bytes), u ≤ fuel → fmtIntegerLoop fuel u buf = decimal u ++ buf := by
  induction fuel with
  | zero =>
    intro u buf hu
    have h0 : u = 0 := by omega
    subst h0
    simp [fmtIntegerLoop, decimal]
  | succ k ih =>
    intro u buf hu
    unfold fmtIntegerLoop
    by_cases h10 : u ≥ 10
    · have hd : 48 + u - u / 10 * 10 = 48 + u % 10 := by omega
      rw [if_pos h10, ih (u / 10) _ (by omega), decimal_step u h10, hd]
      simp
    · rw [if_neg h10, decimal_of_lt_ten u (by omega)]
      simp

theorem fmtInteger_eq_decimal (u : Nat) : fmtInteger u = decimal u := by
  unfold fmtInteger
  rw [fmtIntegerLoop_eq u u [] (le_refl u)]
  simp

theorem decimal_digits (n : Nat) : ∀ c ∈ decimal n, 48 ≤ c ∧ c ≤ 57 := by
  intro c hc
  unfold decimal at hc
  by_cases h0 : n = 0
  · simp [h0] at hc
    omega
  · simp only [h0, if_false, List.mem_map, List.mem_reverse] at hc
    obtain ⟨d, hd, rfl⟩ := hc
    have := Nat.digits_lt_base (by norm_num : 1 < 10) hd
    omega

theorem decimalValue_decimal (n : Nat) : decimalValue (decimal n) = n := by
  induction n using Nat.strong_induction_on with
  | _ n ih =>
    by_cases h10 : 10 ≤ n
    · rw [decimal_step n h10]
      unfold decimalValue at ih ⊢
      rw [List.foldl_append, ih (n / 10) (by omega)]
      simp
      omega
    · rw [decimal_of_lt_ten n (by omega)]
      simp [decimalValue]

theorem decimal_head (n : Nat) : ∃ c rest, decimal n = c :: rest ∧ (c = 48 ↔ n = 0) := by
  induction n using Nat.strong_induction_on with
  | _ n ih =>
    by_cases h10 : 10 ≤ n
    · obtain ⟨c, rest, hc, hz⟩ := ih (n / 10) (by omega)
      refine ⟨c, rest ++ [48 + n % 10], ?_, ?_⟩
      · rw [decimal_step n h10, hc]
        simp
      · constructor
        · intro h
          have := hz.mp h
          omega
        · intro h
          omega
    · refine ⟨48 + n, [], decimal_of_lt_ten n (by omega), ?_⟩
      omega

theorem decimal_length_mono (n m : Nat) (h : n ≤ m) :
    (decimal n).length ≤ (decimal m).length := by
  have hlen : ∀ k, (decimal k).length = max 1 (Nat.digits 10 k).length := by
    intro k
    unfold decimal
    by_cases h0 : k = 0
    · simp [h0]
    · have hpos : 0 < (Nat.digits 10 k).length := by
        rw [List.length_pos]
        exact (Nat.digits_ne_nil_iff_ne_zero).mpr h0
      simp [h0]
      omega
  rw [hlen n, hlen m]
  have := Nat.le_digits_len_le 10 n m h
  omega

theorem decimal_append_inj (m1 m2 : Bytes)
    (h : decimal m1.length ++ m1 = decimal m2.length ++ m2) : m1 = m2 := by
  have hl := congrArg List.length h
  simp only [List.length_append] at hl
  have hlen : m1.length = m2.length := by
    rcases Nat.lt_trichotomy m1.length m2.length with hlt | heq | hgt
    · have := decimal_length_mono _ _ (Nat.le_of_lt hlt)
      omega
    · exact heq
    · have := decimal_length_mono _ _ (Nat.le_of_lt hgt)
      omega
  rw [hlen] at h
  exact List.append_cancel_left h

theorem utf8_length (s : String) : (utf8 s).length = s.utf8ByteSize := by
  simp [utf8, ← String.size_toUTF8, ByteArray.size]

/-! ## `VerifySignature` and its steps -/

/-- `VerifySignature` is its steps put together. -/
theorem VerifySignature_eq (L : CryptoLib) (address msg sigHex : Bytes) :
    VerifySignature L address msg sigHex =
      match prepareSignature sigHex with
      | .reject => some false
      | .fatal => none
      | .ready sigBytes => some (recoverAndCompare L address msg sigBytes) := by
  unfold VerifySignature prepareSignature recoverAndCompare signedData
  simp only
  cases DecodeString (if HasPrefix sigHex (ascii "0x") then sigHex.drop 2 else sigHex) with
  | none => rfl
  | some sb =>
    dsimp only
    by_cases hl : sb.length ≠ 65
    · rw [if_pos hl, if_pos hl]
    · rw [if_neg hl, if_neg hl]
      cases sb.get? 64 with
      | none => rfl
      | some v =>
        simp only
        cases L.SigToPub (L.Keccak256Hash
            (ascii "\x19Ethereum Signed Message:\n" ++ fmtInteger msg.length ++ msg))
            (if v ≥ 27 then sb.set 64 (v - 27) else sb) with
        | none => rfl
        | some pk => rfl

/-! ## The signed payload (`VerifySignature`, step 3) -/

/-- Claim C5: the bytes `VerifySignature` hashes with Keccak-256 are the byte 0x19, the
text "Ethereum Signed Message:", a line feed, the decimal rendering of the length of `msg`
in bytes and then `msg` unchanged. The rendering consists of ASCII digits, denotes the
length, starts with the digit zero only for the empty message (where it is "0"), and for a
text it is the number of bytes of its UTF-8 encoding, which is not the number of
characters. -/
theorem signedData_layout (msg : Bytes) :
    signedData msg
        = [0x19] ++ ascii "Ethereum Signed Message:" ++ [10] ++ decimal msg.length ++ msg
      ∧ (∀ (L : CryptoLib) (address sigHex : Bytes),
          VerifySignature L address msg sigHex =
            match prepareSignature sigHex with
            | .reject => some false
            | .fatal => none
            | .ready sigBytes =>
              some (match L.SigToPub (L.Keccak256Hash
                      ([0x19] ++ ascii "Ethereum Signed Message:" ++ [10]
                        ++ decimal msg.length ++ msg)) sigBytes with
                    | none => false
                    | some pub => EqualFold L.unicodeFold (L.PubkeyToAddressHex pub) address))
      ∧ (∀ c ∈ decimal msg.length, 48 ≤ c ∧ c ≤ 57)
      ∧ decimalValue (decimal msg.length) = msg.length
      ∧ (∃ c rest, decimal msg.length = c :: rest ∧ (c = 48 ↔ msg = []))
      ∧ decimal ([] : Bytes).length = ascii "0"
      ∧ (∀ s : String, (utf8 s).length = s.utf8ByteSize)
      ∧ (utf8 "é").length = 2 ∧ "é".length = 1
      ∧ signedData (utf8 "é") = [0x19] ++ ascii "Ethereum Signed Message:" ++ [10]
          ++ ascii "2" ++ [0xc3, 0xa9] := by
  have hlayout : signedData msg
      = [0x19] ++ ascii "Ethereum Signed Message:" ++ [10] ++ decimal msg.length ++ msg := by
    have hp : ascii "\x19Ethereum Signed Message:\n"
        = [0x19] ++ ascii "Ethereum Signed Message:" ++ [10] := by decide
    unfold signedData
    rw [fmtInteger_eq_decimal, hp]
  refine ⟨hlayout, ?_, decimal_digits _, decimalValue_decimal _, ?_, by decide,
    utf8_length, by decide, by decide, by decide⟩
  · intro L address sigHex
    rw [VerifySignature_eq]
    unfold recoverAndCompare
    rw [hlayout]
  · obtain ⟨c, rest, hc, hz⟩ := decimal_head msg.length
    exact ⟨c, rest, hc, by rw [hz, List.length_eq_zero]⟩

/-- Claim C10: the framing is injective, two different messages are never hashed from the
same payload, neither as the code builds it nor as prefix, decimal length and message. -/
theorem signedData_injective (m1 m2 : Bytes) (h : m1 ≠ m2) :
    signedData m1 ≠ signedData m2
      ∧ ascii "\x19Ethereum Signed Message:\n" ++ decimal m1.length ++ m1
          ≠ ascii "\x19Ethereum Signed Message:\n" ++ decimal m2.length ++ m2 := by
  have key : ascii "\x19Ethereum Signed Message:\n" ++ decimal m1.length ++ m1
      ≠ ascii "\x19Ethereum Signed Message:\n" ++ decimal m2.length ++ m2 := by
    intro heq
    rw [List.append_assoc, List.append_assoc] at heq
    exact h (decimal_append_inj m1 m2 (List.append_cancel_left heq))
  refine ⟨?_, key⟩
  unfold signedData
  rw [fmtInteger_eq_decimal, fmtInteger_eq_decimal]
  exact key

/-- Witness for `signedData_injective`: the messages "a" and "b". -/
theorem signedData_injective_witness :
    ascii "a" ≠ ascii "b" ∧ signedData (ascii "a") ≠ signedData (ascii "b") :=
  ⟨by decide, (signedData_injective (ascii "a") (ascii "b") (by decide)).1⟩

/-! ## Hexadecimal decoding (`VerifySignature`, step 1) -/

theorem fromHexChar_some (c a : Nat) (h : fromHexChar c = some a) : IsHexDigit c ∧ a < 16 := by
  unfold fromHexChar at h
  unfold IsHexDigit
  split_ifs at h with h1 h2 h3 <;> simp at h <;> omega

theorem fromHexChar_hexDigit (n : Nat) (h : n < 16) : fromHexChar (hexDigit n) = some n := by
  unfold fromHexChar hexDigit
  interval_cases n <;> simp

theorem DecodeString_some : ∀ (s out : Bytes), DecodeString s = some out →
    s.length = 2 * out.length ∧ (∀ c ∈ s, IsHexDigit c) ∧ IsBytes out
  | [], out, h => by
    simp [DecodeString] at h
    subst h
    simp [IsBytes]
  | [_], out, h => by simp [DecodeString] at h
  | p :: q :: rest, out, h => by
    unfold DecodeString at h
    cases hp : fromHexChar p with
    | none => simp [hp] at h
    | some a =>
      cases hq : fromHexChar q with
      | none => simp [hp, hq] at h
      | some b =>
        cases hr : DecodeString rest with
        | none => simp [hp, hq, hr] at h
        | some tl =>
          simp [hp, hq, hr] at h
          subst h
          obtain ⟨hl, hd, hb⟩ := DecodeString_some rest tl hr
          obtain ⟨hpd, ha⟩ := fromHexChar_some p a hp
          obtain ⟨hqd, hb16⟩ := fromHexChar_some q b hq
          refine ⟨by simp [hl]; omega, ?_, ?_⟩
          · intro c hc
            simp only [List.mem_cons] at hc
            rcases hc with rfl | rfl | hc
            · exact hpd
            · exact hqd
            · exact hd c hc
          · intro x hx
            simp only [List.mem_cons] at hx
            rcases hx with rfl | hx
            · omega
            · exact hb x hx

theorem DecodeString_EncodeToString : ∀ (bs : Bytes), IsBytes bs →
    DecodeString (EncodeToString bs) = some bs
  | [], _ => by simp [EncodeToString, DecodeString]
  | b :: bs, h => by
    have hb : b < 256 := h b (List.mem_cons_self _ _)
    have hbs : IsBytes bs := fun x hx => h x (List.mem_cons_of_mem _ hx)
    have e : b / 16 * 16 + b % 16 = b := by omega
    simp [EncodeToString, DecodeString, fromHexChar_hexDigit (b / 16) (by omega),
      fromHexChar_hexDigit (b % 16) (Nat.mod_lt _ (by norm_num)),
      DecodeString_EncodeToString bs hbs, e]

theorem strip0x_spec (s : Bytes) :
    (if HasPrefix s (ascii "0x") then s.drop 2 else s) = strip0x s := by
  have hp : ascii "0x" = [48, 120] := by decide
  rw [hp]
  match s with
  | [] => simp [HasPrefix, strip0x]
  | [a] => simp [HasPrefix, strip0x]
  | a :: b :: rest =>
    by_cases h : a = 48 ∧ b = 120
    · obtain ⟨rfl, rfl⟩ := h
      simp [HasPrefix, strip0x]
    · have hs : strip0x (a :: b :: rest) = a :: b :: rest := by
        unfold strip0x
        split
        · rename_i heq
          simp at heq
          exact absurd ⟨heq.1, heq.2.1⟩ h
        · rfl
      rw [hs]
      simp [HasPrefix]
      intro ha hb
      exact absurd ⟨ha, hb⟩ h

theorem strip0x_prefixed (s : Bytes) : strip0x (ascii "0x" ++ s) = s := by
  have hp : ascii "0x" = [48, 120] := by decide
  rw [hp]
  rfl

theorem strip0x_EncodeToString (bs : Bytes) : strip0x (EncodeToString bs) = EncodeToString bs := by
  match bs with
  | [] => rfl
  | b :: bs =>
    have hx : hexDigit (b % 16) ≠ 120 := by
      have : b % 16 < 16 := Nat.mod_lt _ (by norm_num)
      unfold hexDigit
      split_ifs <;> omega
    unfold EncodeToString strip0x
    split
    · rename_i heq
      simp at heq
      exact absurd heq.2.1 hx
    · rfl

/-- The first two steps of `VerifySignature` in closed form; they never end in a panic. -/
theorem prepareSignature_eq (sigHex : Bytes) :
    prepareSignature sigHex =
      match DecodeString (strip0x sigHex) with
      | none => .reject
      | some sigBytes =>
        if sigBytes.length ≠ 65 then .reject
        else .ready (sigBytes.take 64 ++
          [if sigBytes.getD 64 0 ≥ 27 then sigBytes.getD 64 0 - 27 else sigBytes.getD 64 0]) := by
  unfold prepareSignature
  simp only [strip0x_spec]
  cases hd : DecodeString (strip0x sigHex) with
  | none => rfl
  | some sb =>
    simp only
    by_cases hl : sb.length = 65
    · have h64 : 64 < sb.length := by omega
      have hsplit : sb = sb.take 64 ++ [sb.getD 64 0] := by
        apply List.ext_getElem
        · simp; omega
        · intro n h1 h2
          by_cases hn : n < 64
          · rw [List.getElem_append_left (by simp; omega)]
            simp
          · have hn64 : n = 64 := by omega
            subst hn64
            rw [List.getElem_append_right (by simp)]
            simp [List.getD_eq_getElem?_getD, List.getElem?_eq_getElem h64, hl]
      have hget : sb.get? 64 = some (sb.getD 64 0) := by
        simp [List.getD_eq_getElem?_getD, List.getElem?_eq_getElem h64]
      simp only [hl, ne_eq, not_true_eq_false, if_false, hget]
      by_cases hv : sb.getD 64 0 ≥ 27
      · simp only [hv, if_true]
        congr 1
        conv_lhs => rw [hsplit]
        rw [List.set_append_right _ _ (by simp)]
        simp [hl]
      · simp only [hv, if_false]
        congr 1
    · simp [hl]

/-! ## `strings.EqualFold` on ASCII strings -/

theorem EqualFold_self (uni : UnicodeFold) : ∀ (s : Bytes), (∀ b ∈ s, b < 128) →
    EqualFold uni s s = true
  | [], _ => by simp [EqualFold]
  | a :: s, h => by
    have ha : a < 128 := h a (List.mem_cons_self _ _)
    have hs : ∀ b ∈ s, b < 128 := fun b hb => h b (List.mem_cons_of_mem _ hb)
    unfold EqualFold
    simp [Nat.or_self, Nat.not_le.mpr ha, EqualFold_self uni s hs]

theorem EqualFold_ascii (uni : UnicodeFold) : ∀ (s t : Bytes), (∀ b ∈ s, b < 128) →
    (∀ b ∈ t, b < 128) → (EqualFold uni s t = true ↔ lowerAscii s = lowerAscii t)
  | [], [], _, _ => by simp [EqualFold, lowerAscii]
  | [], _ :: _, _, _ => by simp [EqualFold, lowerAscii]
  | _ :: _, [], _, _ => by simp [EqualFold, lowerAscii]
  | a :: s, b :: t, hs, ht => by
    have ha : a < 128 := hs a (List.mem_cons_self _ _)
    have hb : b < 128 := ht b (List.mem_cons_self _ _)
    have hs1 : ∀ c ∈ s, c < 128 := fun c hc => hs c (List.mem_cons_of_mem _ hc)
    have ht1 : ∀ c ∈ t, c < 128 := fun c hc => ht c (List.mem_cons_of_mem _ hc)
    have hor : a ||| b < 128 := Nat.or_lt_two_pow (n := 7) ha hb
    have ih := EqualFold_ascii uni s t hs1 ht1
    unfold EqualFold
    simp only [ge_iff_le, Nat.not_le.mpr hor, if_false]
    unfold lowerAscii at ih ⊢
    simp only [List.map_cons, List.cons.injEq]
    by_cases hab : b = a
    · subst hab
      simp [ih]
    · simp only [hab, if_false]
      by_cases hlt : b < a
      · simp only [hlt, if_true]
        by_cases hc : 65 ≤ b ∧ b ≤ 90 ∧ a = b + 97 - 65
        · rw [if_pos hc, ih]
          constructor
          · intro h
            refine ⟨?_, h⟩
            split_ifs <;> omega
          · exact fun h => h.2
        · rw [if_neg hc]
          constructor
          · intro h
            exact absurd h (by simp)
          · intro h
            exfalso
            apply hc
            have h1 := h.1
            split_ifs at h1 <;> omega
      · simp only [hlt, if_false]
        by_cases hc : 65 ≤ a ∧ a ≤ 90 ∧ b = a + 97 - 65
        · rw [if_pos hc, ih]
          constructor
          · intro h
            refine ⟨?_, h⟩
            split_ifs <;> omega
          · exact fun h => h.2
        · rw [if_neg hc]
          constructor
          · intro h
            exact absurd h (by simp)
          · intro h
            exfalso
            apply hc
            have h1 := h.1
            split_ifs at h1 <;> omega

/-! ## `VerifySignature` -/

theorem prepareSignature_of_decode (sigHex rs : Bytes) (v : Nat)
    (hdec : DecodeString (strip0x sigHex) = some (rs ++ [v])) (hrs : rs.length = 64) :
    prepareSignature sigHex = .ready (rs ++ [if v ≥ 27 then v - 27 else v]) := by
  have htake : (rs ++ [v]).take 64 = rs := by
    rw [← hrs]
    simp
  have hget : (rs ++ [v]).getD 64 0 = v := by
    rw [← hrs]
    simp [List.getD_eq_getElem?_getD]
  rw [prepareSignature_eq, hdec]
  simp only [htake, hget]
  simp [hrs]

theorem VerifySignature_of_ready (L : CryptoLib) (address msg sigHex sigBytes : Bytes)
    (h : prepareSignature sigHex = .ready sigBytes) :
    VerifySignature L address msg sigHex = some (recoverAndCompare L address msg sigBytes) := by
  rw [VerifySignature_eq, h]

/-- The function never panics: it always returns a boolean. -/
theorem VerifySignature_total (L : CryptoLib) (address msg sigHex : Bytes) :
    ∃ b, VerifySignature L address msg sigHex = some b := by
  rw [VerifySignature_eq, prepareSignature_eq]
  cases DecodeString (strip0x sigHex) with
  | none => exact ⟨false, rfl⟩
  | some sb =>
    by_cases hl : sb.length = 65
    · simp [hl]
    · simp [hl]

/-- Claim C6: when the signature text, after removal of one optional leading `0x`, is not
130 hexadecimal digits (the encoding of exactly 65 bytes), `VerifySignature` returns false;
it does not panic. -/
theorem VerifySignature_malformed (L : CryptoLib) (address msg sigHex : Bytes)
    (h : ¬ IsHex65 (strip0x sigHex)) :
    VerifySignature L address msg sigHex = some false := by
  rw [VerifySignature_eq, prepareSignature_eq]
  cases hd : DecodeString (strip0x sigHex) with
  | none => rfl
  | some sb =>
    by_cases hl : sb.length = 65
    · exfalso
      obtain ⟨hlen, hdig, _⟩ := DecodeString_some _ _ hd
      exact h ⟨by omega, hdig⟩
    · simp [hl]

/-- Witness for `VerifySignature_malformed`: the empty signature, which is not the
encoding of 65 bytes. -/
theorem VerifySignature_malformed_witness :
    ¬ IsHex65 (strip0x []) ∧
      VerifySignature demoCrypto (ascii "0x07") (ascii "Login to D-Drive: 00") [] = some false :=
  ⟨fun h => by simp [IsHex65, strip0x] at h,
   VerifySignature_malformed demoCrypto (ascii "0x07") (ascii "Login to D-Drive: 00") []
    (fun h => by simp [IsHex65, strip0x] at h)⟩

/-- Claim C7, refuted as stated: for the 65-byte signature of 64 zero bytes followed by
`v = 29`, a value that is none of 0, 1, 27, 28, the bytes handed to public-key recovery
end in the recovery id 2, which is neither 0 nor 1. -/
theorem prepareSignature_v29 :
    ∃ sigBytes, prepareSignature (EncodeToString (List.replicate 64 0 ++ [29])) = .ready sigBytes
      ∧ sigBytes.get? 64 = some 2 :=
  ⟨List.replicate 64 0 ++ [2],
    prepareSignature_of_decode _ (List.replicate 64 0) 29
      (by rw [strip0x_EncodeToString]
          exact DecodeString_EncodeToString _ (by intro b hb; simp at hb; omega))
      (by simp),
    by simp [List.get?_eq_getElem?, List.getElem?_append_right]⟩

/-- Claim C7, amended: for every identity, message and signature text decoding to 65
bytes `r‖s‖v`, `VerifySignature` does not panic; the bytes handed to public-key recovery
are `r‖s` followed by `v - 27` when `v ≥ 27` and by `v` otherwise, a value that is 0 or 1
exactly when `v` is one of 0, 1, 27, 28; whenever recovery rejects these bytes the result
is false. -/
theorem VerifySignature_recovery_id (L : CryptoLib) (address msg sigHex rs : Bytes) (v : Nat)
    (hdec : DecodeString (strip0x sigHex) = some (rs ++ [v])) (hrs : rs.length = 64) :
    prepareSignature sigHex = .ready (rs ++ [if v ≥ 27 then v - 27 else v])
      ∧ ((if v ≥ 27 then v - 27 else v) ≤ 1 ↔ (v = 0 ∨ v = 1 ∨ v = 27 ∨ v = 28))
      ∧ VerifySignature L address msg sigHex
          = some (recoverAndCompare L address msg (rs ++ [if v ≥ 27 then v - 27 else v]))
      ∧ (L.SigToPub (L.Keccak256Hash (signedData msg))
            (rs ++ [if v ≥ 27 then v - 27 else v]) = none →
          VerifySignature L address msg sigHex = some false) := by
  have hp := prepareSignature_of_decode sigHex rs v hdec hrs
  have hv := VerifySignature_of_ready L address msg sigHex _ hp
  refine ⟨hp, ?_, hv, ?_⟩
  · split_ifs <;> omega
  · intro hnone
    rw [hv]
    unfold recoverAndCompare
    rw [hnone]

/-- Witness for `VerifySignature_recovery_id`: 64 bytes of value 7 followed by `v = 30`,
hex-encoded with a leading `0x`. -/
theorem VerifySignature_recovery_id_witness :
    prepareSignature (ascii "0x" ++ EncodeToString (List.replicate 64 7 ++ [30]))
      = .ready (List.replicate 64 7 ++ [3]) :=
  (VerifySignature_recovery_id demoCrypto (ascii "0x07") (ascii "Login to D-Drive: 00")
    (ascii "0x" ++ EncodeToString (List.replicate 64 7 ++ [30])) (List.replicate 64 7) 30
    (by rw [strip0x_prefixed]
        exact DecodeString_EncodeToString _ (by intro b hb; simp at hb; omega))
    (by simp)).1

/-- Claim C2: let `r‖s‖v` be a 65-byte signature with `v` in 0, 1, 27, 28 made by the
holder of public key `pub` over the Keccak-256 digest of the prefixed message `M`, that is,
public-key recovery from the digest, `r‖s` and the recovery id (`v` or `v - 27`) yields
`pub`. Then `VerifySignature` accepts its hexadecimal text (with or without `0x`) for the
address of `pub`, and rejects it for every identity that `strings.EqualFold` does not
equate with that address, in particular for every ASCII identity that differs from the
address after lower-casing. -/
theorem VerifySignature_signer (L : CryptoLib) (pub M rs : Bytes) (recid v : Nat)
    (hrs : rs.length = 64) (hbytes : IsBytes rs)
    (hrec : recid = 0 ∨ recid = 1) (hv : v = recid ∨ v = recid + 27)
    (hsig : L.SigToPub (L.Keccak256Hash (signedData M)) (rs ++ [recid]) = some pub)
    (hascii : ∀ b ∈ L.PubkeyToAddressHex pub, b < 128)
    (sigHex : Bytes)
    (hhex : sigHex = EncodeToString (rs ++ [v])
      ∨ sigHex = ascii "0x" ++ EncodeToString (rs ++ [v])) :
    VerifySignature L (L.PubkeyToAddressHex pub) M sigHex = some true
      ∧ (∀ id, EqualFold L.unicodeFold (L.PubkeyToAddressHex pub) id = false →
          VerifySignature L id M sigHex = some false)
      ∧ (∀ id, (∀ b ∈ id, b < 128) → lowerAscii id ≠ lowerAscii (L.PubkeyToAddressHex pub) →
          VerifySignature L id M sigHex = some false) := by
  have hb : IsBytes (rs ++ [v]) := by
    intro b hbm
    rw [List.mem_append] at hbm
    rcases hbm with hbm | hbm
    · exact hbytes b hbm
    · simp at hbm
      omega
  have hdec : DecodeString (strip0x sigHex) = some (rs ++ [v]) := by
    rcases hhex with rfl | rfl
    · rw [strip0x_EncodeToString]
      exact DecodeString_EncodeToString _ hb
    · rw [strip0x_prefixed]
      exact DecodeString_EncodeToString _ hb
  have hnv : (if v ≥ 27 then v - 27 else v) = recid := by
    split_ifs <;> omega
  have hp := prepareSignature_of_decode sigHex rs v hdec hrs
  rw [hnv] at hp
  have hver : ∀ id, VerifySignature L id M sigHex
      = some (EqualFold L.unicodeFold (L.PubkeyToAddressHex pub) id) := by
    intro id
    rw [VerifySignature_of_ready L id M sigHex _ hp]
    unfold recoverAndCompare
    rw [hsig]
  refine ⟨?_, ?_, ?_⟩
  · rw [hver, EqualFold_self _ _ hascii]
  · intro id hid
    rw [hver, hid]
  · intro id hida hne
    rw [hver]
    cases hE : EqualFold L.unicodeFold (L.PubkeyToAddressHex pub) id with
    | false => rfl
    | true =>
      exact absurd ((EqualFold_ascii _ _ _ hascii hida).mp hE).symm hne

/-- Witness for `VerifySignature_signer`: the stand-in library, the key `[7]` with address
`0x07`, and the signature of 64 bytes of value 105 with `v = 27`. -/
theorem VerifySignature_signer_witness :
    VerifySignature demoCrypto (ascii "0x07") (ascii "Login to D-Drive: 00")
        (EncodeToString (List.replicate 64 105 ++ [27])) = some true :=
  (VerifySignature_signer demoCrypto [7] (ascii "Login to D-Drive: 00") (List.replicate 64 105)
    0 27 (by simp) (by intro b hb; simp at hb; omega) (Or.inl rfl) (Or.inr rfl)
    (by decide) (by decide) _ (Or.inl rfl)).1

/-! ## The `login` handler -/

theorem Store.First_Update (st : Store) (address : Bytes) (user target : User) (nonce : Bytes)
    (h : st.First address = some user) :
    ∃ user1, (st.Update target nonce).1.First address = some user1 := by
  unfold Store.First at h ⊢
  unfold Store.Update
  by_cases hr : st.failRead = true
  · simp [hr] at h
  · by_cases hw : st.failWrite = true
    · simp only [hw, if_true]
      exact ⟨user, h⟩
    · simp only [hw, hr, if_false, Bool.false_eq_true] at h ⊢
      rw [List.find?_map]
      have hcomp : ((fun u : User => u.Address == address) ∘
          fun u : User => if u.Address == target.Address then { u with Nonce := nonce } else u)
          = fun u : User => u.Address == address := by
        funext u
        simp only [Function.comp]
        split_ifs <;> rfl
      rw [hcomp, h]
      exact ⟨_, rfl⟩

theorem login_status_of_found (L : CryptoLib) (J : JwtLib) (now : Nat) (st : Store)
    (req : LoginRequest) (user : User) (h : st.First req.Address = some user) :
    (login L J now st (some req)).1.status ≠ 404 := by
  unfold login
  simp only [h]
  cases VerifySignature L req.Address user.Nonce req.Signature with
  | none => simp
  | some b =>
    cases b with
    | false => simp
    | true =>
      cases GenerateJWT J now req.Address with
      | none => simp
      | some tok => simp

theorem login_ok_inv (L : CryptoLib) (J : JwtLib) (now : Nat) (st st1 : Store)
    (req : LoginRequest) (body : Body)
    (h : login L J now st (some req) = (⟨200, body⟩, st1)) :
    ∃ user, st.First req.Address = some user ∧ st1 = (st.Update user []).1 := by
  unfold login at h
  cases hf : st.First req.Address with
  | none => simp [hf] at h
  | some user =>
    simp only [hf] at h
    cases hv : VerifySignature L req.Address user.Nonce req.Signature with
    | none => simp [hv] at h
    | some b =>
      cases b with
      | false => simp [hv] at h
      | true =>
        simp only [hv] at h
        cases ht : GenerateJWT J now req.Address with
        | none => simp [ht] at h
        | some tok =>
          simp only [ht, Prod.mk.injEq] at h
          exact ⟨user, rfl, h.2.symm⟩

/-- An identity without a row in the store is answered 404, whatever the signature. -/
theorem login_unknown_identity (L : CryptoLib) (J : JwtLib) (now : Nat) (st : Store)
    (req : LoginRequest) (h : st.First req.Address = none) :
    login L J now st (some req)
      = (⟨404, .error "User not found or nonce expired. Please call /auth/nonce first."⟩, st) := by
  unfold login
  simp only [h]

theorem Store.First_Update_nonce (st : Store) (address : Bytes) (user : User)
    (hw : st.failWrite = false) (h : st.First address = some user) :
    ∃ user1, (st.Update user []).1.First address = some user1 ∧ user1.Nonce = [] := by
  obtain ⟨user1, hf1⟩ := Store.First_Update st address user user [] h
  refine ⟨user1, hf1, ?_⟩
  have hkey : user.Address = address := by
    unfold Store.First at h
    split_ifs at h
    simpa using List.find?_some h
  unfold Store.First Store.Update at hf1
  simp only [hw, Bool.false_eq_true, if_false] at hf1
  split_ifs at hf1
  have hmem := List.mem_of_find?_eq_some hf1
  have hk1 := List.find?_some hf1
  rw [List.mem_map] at hmem
  obtain ⟨u, _, hu⟩ := hmem
  split_ifs at hu with hc
  · rw [← hu]
  · exfalso
    apply hc
    rw [← hu] at hk1
    simp only [beq_iff_eq] at hk1 ⊢
    rw [hk1, hkey]

/-- Claim C1, behaviour of the code after a challenge was consumed: when `login` has
answered 200, the same request submitted again is not answered 404, because the row of the
identity is still found. When the nonce was cleared, the stored empty nonce is verified
like a challenge: a signature that does not verify against the empty message is answered
401 with the store unchanged, and one that does verify against it is answered 200 although
no new challenge was requested. -/
theorem login_replay (L : CryptoLib) (J : JwtLib) (now now2 : Nat) (st st1 : Store)
    (req : LoginRequest) (body : Body)
    (h : login L J now st (some req) = (⟨200, body⟩, st1)) :
    (login L J now2 st1 (some req)).1.status ≠ 404
      ∧ (st.failWrite = false →
          VerifySignature L req.Address [] req.Signature = some false →
          login L J now2 st1 (some req)
            = (⟨401, .error "Signature verification failed"⟩, st1))
      ∧ (st.failWrite = false → ∀ sig2 tok,
          VerifySignature L req.Address [] sig2 = some true →
          GenerateJWT J now2 req.Address = some tok →
          (login L J now2 st1 (some ⟨req.Address, sig2⟩)).1
            = ⟨200, .token tok "Login successful"⟩) := by
  obtain ⟨user, hf, hst⟩ := login_ok_inv L J now st st1 req body h
  refine ⟨?_, ?_, ?_⟩
  · obtain ⟨user1, hf1⟩ := Store.First_Update st req.Address user user [] hf
    rw [← hst] at hf1
    exact login_status_of_found L J now2 st1 req user1 hf1
  · intro hw hrej
    obtain ⟨user1, hf1, hnonce⟩ := Store.First_Update_nonce st req.Address user hw hf
    rw [← hst] at hf1
    unfold login
    simp only [hf1, hnonce, hrej]
  · intro hw sig2 tok hacc htok
    obtain ⟨user1, hf1, hnonce⟩ := Store.First_Update_nonce st req.Address user hw hf
    rw [← hst] at hf1
    unfold login
    simp only [hf1, hnonce, hacc, htok]

/-- Witness for `login_replay`: with the stand-in libraries, a login that succeeds on the
challenge "Login to D-Drive: 00" and the same request sent again, answered 401. -/
theorem login_replay_witness :
    (login demoCrypto demoJwt 100
        ⟨[⟨ascii "0x07", ascii "Login to D-Drive: 00"⟩], false, false⟩
        (some ⟨ascii "0x07", EncodeToString (List.replicate 64 105 ++ [27])⟩)).1.status = 200
      ∧ (login demoCrypto demoJwt 101 ⟨[⟨ascii "0x07", []⟩], false, false⟩
          (some ⟨ascii "0x07", EncodeToString (List.replicate 64 105 ++ [27])⟩)).1.status
        = 401 :=
  ⟨by decide,
   by rw [(login_replay demoCrypto demoJwt 100 101
        ⟨[⟨ascii "0x07", ascii "Login to D-Drive: 00"⟩], false, false⟩
        ⟨[⟨ascii "0x07", []⟩], false, false⟩
        ⟨ascii "0x07", EncodeToString (List.replicate 64 105 ++ [27])⟩
        (.token ((demoJwt.SignedString JwtKey ⟨ascii "0x07", some 86500⟩).getD [])
          "Login successful")
        (by decide)).2.1 rfl (by decide)]⟩

/-- Claim C3, behaviour of the code when the nonce-clearing write fails: `login` still
answers 200 with the token, the store is unchanged and the challenge of the identity is
still the one that was just used. -/
theorem login_ok_despite_failed_write (L : CryptoLib) (J : JwtLib) (now : Nat) (st : Store)
    (req : LoginRequest) (user : User) (tok : Bytes)
    (hw : st.failWrite = true)
    (hf : st.First req.Address = some user)
    (hv : VerifySignature L req.Address user.Nonce req.Signature = some true)
    (ht : GenerateJWT J now req.Address = some tok) :
    login L J now st (some req) = (⟨200, .token tok "Login successful"⟩, st)
      ∧ (login L J now st (some req)).2.First req.Address = some user := by
  have h : login L J now st (some req) = (⟨200, .token tok "Login successful"⟩, st) := by
    unfold login
    simp only [hf, hv, ht]
    unfold Store.Update
    simp [hw]
  rw [h]
  exact ⟨rfl, hf⟩

/-- Witness for `login_ok_despite_failed_write`: the stand-in libraries and a store whose
writes fail. -/
theorem login_ok_despite_failed_write_witness :
    (login demoCrypto demoJwt 100
        ⟨[⟨ascii "0x07", ascii "Login to D-Drive: 00"⟩], false, true⟩
        (some ⟨ascii "0x07", EncodeToString (List.replicate 64 105 ++ [27])⟩)).2
      = ⟨[⟨ascii "0x07", ascii "Login to D-Drive: 00"⟩], false, true⟩ :=
  congrArg Prod.snd (login_ok_despite_failed_write demoCrypto demoJwt 100
    ⟨[⟨ascii "0x07", ascii "Login to D-Drive: 00"⟩], false, true⟩
    ⟨ascii "0x07", EncodeToString (List.replicate 64 105 ++ [27])⟩
    ⟨ascii "0x07", ascii "Login to D-Drive: 00"⟩
    ((demoJwt.SignedString JwtKey ⟨ascii "0x07", some 86500⟩).getD [])
    rfl (by decide) (by decide) (by decide)).1

/-- Claim C8: when the identity has a pending challenge and `VerifySignature` rejects the
signature against it, `login` answers 401 and leaves the store exactly as it was, so any
later login is answered as if the failed attempt had not happened; in particular one with
a signature that verifies against the same challenge is answered 200 with a token. -/
theorem login_rejected_signature (L : CryptoLib) (J : JwtLib) (now : Nat) (st : Store)
    (id sig : Bytes) (user : User)
    (hf : st.First id = some user)
    (hrej : VerifySignature L id user.Nonce sig = some false) :
    login L J now st (some ⟨id, sig⟩) = (⟨401, .error "Signature verification failed"⟩, st)
      ∧ (∀ now2 body2, login L J now2 (login L J now st (some ⟨id, sig⟩)).2 body2
            = login L J now2 st body2)
      ∧ (∀ now2 sig2 tok, VerifySignature L id user.Nonce sig2 = some true →
            GenerateJWT J now2 id = some tok →
            (login L J now2 (login L J now st (some ⟨id, sig⟩)).2 (some ⟨id, sig2⟩)).1
              = ⟨200, .token tok "Login successful"⟩) := by
  have h : login L J now st (some ⟨id, sig⟩)
      = (⟨401, .error "Signature verification failed"⟩, st) := by
    unfold login
    simp only [hf, hrej]
  rw [h]
  refine ⟨rfl, fun _ _ => rfl, ?_⟩
  intro now2 sig2 tok hv ht
  unfold login
  simp only [hf, hv, ht]

/-- Witness for `login_rejected_signature`: a pending challenge and the empty signature. -/
theorem login_rejected_signature_witness :
    login demoCrypto demoJwt 100
        ⟨[⟨ascii "0x07", ascii "Login to D-Drive: 00"⟩], false, false⟩
        (some ⟨ascii "0x07", []⟩)
      = (⟨401, .error "Signature verification failed"⟩,
          ⟨[⟨ascii "0x07", ascii "Login to D-Drive: 00"⟩], false, false⟩) :=
  (login_rejected_signature demoCrypto demoJwt 100
    ⟨[⟨ascii "0x07", ascii "Login to D-Drive: 00"⟩], false, false⟩
    (ascii "0x07") [] ⟨ascii "0x07", ascii "Login to D-Drive: 00"⟩
    (by decide) (by decide)).1

/-! ## Session tokens (`middleware/auth.go`) -/

theorem Split_of_not_mem (sep : Nat) : ∀ (s : Bytes), sep ∉ s → Split sep s = [s]
  | [], _ => rfl
  | b :: bs, h => by
    have hb : b ≠ sep := fun e => h (e ▸ List.mem_cons_self _ _)
    have hbs : sep ∉ bs := fun hm => h (List.mem_cons_of_mem _ hm)
    unfold Split
    rw [if_neg hb, Split_of_not_mem sep bs hbs]

theorem Split_append (sep : Nat) (t : Bytes) : ∀ (s : Bytes), sep ∉ s →
    Split sep (s ++ sep :: t) = s :: Split sep t
  | [], _ => by simp [Split]
  | b :: bs, h => by
    have hb : b ≠ sep := fun e => h (e ▸ List.mem_cons_self _ _)
    have hbs : sep ∉ bs := fun hm => h (List.mem_cons_of_mem _ hm)
    rw [List.cons_append, Split, if_neg hb, Split_append sep t bs hbs]

theorem Split_bearer (tok : Bytes) (h : 32 ∉ tok) :
    Split 32 (ascii "Bearer " ++ tok) = [ascii "Bearer", tok] := by
  have hp : ascii "Bearer " = ascii "Bearer" ++ [32] := by decide
  rw [hp, List.append_assoc, List.singleton_append,
    Split_append 32 tok (ascii "Bearer") (by decide), Split_of_not_mem 32 tok h]

theorem AuthMiddleware_bearer (J : JwtLib) (now : Nat) (tok : Bytes) (h : 32 ∉ tok) :
    AuthMiddleware J now (ascii "Bearer " ++ tok) =
      match ParseWithClaims J JwtKey now tok with
      | none => .abort 401 "Invalid token"
      | some claims => .next claims.Address := by
  have hne : ascii "Bearer " ++ tok ≠ [] := by
    have hp : ascii "Bearer " = 66 :: ascii "earer " := by decide
    rw [hp]
    simp
  unfold AuthMiddleware
  rw [if_neg hne, Split_bearer tok h]
  simp

/-- Claim C9: the token `GenerateJWT` returns for identity `id` at time `t` is the signed
encoding of the claims address = `id` and expiry = `t` + 24 h. Given that the library
verifies it under the key and decodes those claims, and that the token contains no space,
presenting `Bearer <token>` at any time before the expiry is accepted with exactly `id`
attached to the request, and at the expiry or later it is rejected with 401 and nothing
attached. -/
theorem token_round_trip (J : JwtLib) (id tok : Bytes) (t : Nat)
    (hsign : GenerateJWT J t id = some tok)
    (hverify : J.verify JwtKey tok = some { Address := id, ExpiresAt := some (t + 24 * 3600) })
    (hsp : 32 ∉ tok) :
    J.SignedString JwtKey { Address := id, ExpiresAt := some (t + 24 * 3600) } = some tok
      ∧ (∀ now, now < t + 24 * 3600 →
          AuthMiddleware J now (ascii "Bearer " ++ tok) = .next id)
      ∧ (∀ now, t + 24 * 3600 ≤ now →
          AuthMiddleware J now (ascii "Bearer " ++ tok) = .abort 401 "Invalid token") := by
  refine ⟨hsign, ?_, ?_⟩
  · intro now hnow
    rw [AuthMiddleware_bearer J now tok hsp]
    unfold ParseWithClaims
    simp [hverify, hnow]
  · intro now hnow
    rw [AuthMiddleware_bearer J now tok hsp]
    unfold ParseWithClaims
    simp [hverify, Nat.not_lt.mpr hnow]

/-- Witness for `token_round_trip`: the stand-in library, identity `0x07`, issue time 100;
the token is accepted at time 86499. -/
theorem token_round_trip_witness :
    AuthMiddleware demoJwt 86499
        (ascii "Bearer " ++ (GenerateJWT demoJwt 100 (ascii "0x07")).getD [])
      = .next (ascii "0x07") :=
  (token_round_trip demoJwt (ascii "0x07") ((GenerateJWT demoJwt 100 (ascii "0x07")).getD [])
    100 (by decide) (by decide) (by decide)).2.1 86499 (by decide)

/-! ## Configuration (`config/config.go`) and the signing key -/

/-- Claim C4, refuted as stated: with `DB_DSN` set and `JWT_SECRET` not set, `LoadConfig`
does not abort but yields a configuration whose secret is the built-in
`unsafe_default_secret`; and with `JWT_SECRET` set to `s3cret` the key `GenerateJWT` signs
with is still the built-in `my_super_secret_key`, not the loaded secret. -/
theorem LoadConfig_default_secret :
    LoadConfig none [(ascii "DB_DSN", ascii "dsn")]
        = .ok { ServerPort := ascii "8080", DBDsn := ascii "dsn",
                JwtSecret := ascii "unsafe_default_secret", PinataJWT := [] }
      ∧ LoadConfig none [(ascii "DB_DSN", ascii "dsn"), (ascii "JWT_SECRET", ascii "s3cret")]
        = .ok { ServerPort := ascii "8080", DBDsn := ascii "dsn",
                JwtSecret := ascii "s3cret", PinataJWT := [] }
      ∧ GenerateJWT demoJwt 100 (ascii "0x07")
        = demoJwt.SignedString (ascii "my_super_secret_key")
            { Address := ascii "0x07", ExpiresAt := some 86500 }
      ∧ GenerateJWT demoJwt 100 (ascii "0x07")
        ≠ demoJwt.SignedString (ascii "s3cret")
            { Address := ascii "0x07", ExpiresAt := some 86500 } := by
  refine ⟨rfl, rfl, by decide, by decide⟩

theorem LookupEnv_eq_lookup (key : Bytes) : ∀ (env : Env), LookupEnv env key = env.lookup key
  | [] => rfl
  | (k, v) :: rest => by
    have ih := LookupEnv_eq_lookup key rest
    unfold LookupEnv at ih ⊢
    by_cases hk : k = key
    · subst hk
      simp [List.find?, List.lookup]
    · have hk2 : (key == k) = false := by
        simp only [beq_eq_false_iff_ne, ne_eq]
        exact fun e => hk e.symm
      have hk3 : (k == key) = false := by
        simp only [beq_eq_false_iff_ne, ne_eq]
        exact hk
      simp only [List.find?, List.lookup, hk2, hk3]
      exact ih

theorem lookup_append (key : Bytes) (file : Env) : ∀ (env : Env),
    (env ++ file).lookup key =
      match env.lookup key with
      | some value => some value
      | none => file.lookup key
  | [] => by simp [List.lookup]
  | (k, v) :: rest => by
    have ih := lookup_append key file rest
    by_cases hk : k = key
    · subst hk
      simp [List.lookup]
    · have hk2 : (key == k) = false := by
        simp only [beq_eq_false_iff_ne, ne_eq]
        exact fun e => hk e.symm
      simp only [List.cons_append, List.lookup, hk2]
      exact ih

theorem LookupEnv_godotenvLoad (dotenv : Option Env) (env : Env) (key : Bytes) :
    LookupEnv (godotenvLoad dotenv env) key = effectiveValue dotenv env key := by
  rw [LookupEnv_eq_lookup]
  unfold godotenvLoad effectiveValue
  cases dotenv with
  | none =>
    simp only
    cases env.lookup key <;> rfl
  | some file =>
    simp only
    rw [lookup_append]

theorem getEnv_godotenvLoad (dotenv : Option Env) (env : Env) (key fallback : Bytes) :
    getEnv (godotenvLoad dotenv env) key fallback
      = (effectiveValue dotenv env key).getD fallback := by
  unfold getEnv
  rw [LookupEnv_godotenvLoad]
  cases effectiveValue dotenv env key <;> rfl

/-- What `LoadConfig` computes, in terms of the environment and the `.env` file. -/
theorem LoadConfig_eq (dotenv : Option Env) (env : Env) :
    LoadConfig dotenv env =
      if (effectiveValue dotenv env (ascii "DB_DSN")).getD [] = [] then
        .error "DB_DSN is not configured"
      else
        .ok { ServerPort := (effectiveValue dotenv env (ascii "SERVER_PORT")).getD (ascii "8080")
              DBDsn := (effectiveValue dotenv env (ascii "DB_DSN")).getD []
              JwtSecret := (effectiveValue dotenv env (ascii "JWT_SECRET")).getD
                (ascii "unsafe_default_secret")
              PinataJWT := (effectiveValue dotenv env (ascii "PINATA_JWT")).getD [] } := by
  unfold LoadConfig
  simp only [getEnv_godotenvLoad]

/-- Claim C4, amended: for every process environment and `.env` file, `LoadConfig` aborts
startup exactly when `DB_DSN` is unset (in the environment and in the file) or set to the
empty value. Otherwise it does not abort, whether or not `JWT_SECRET` is set: it yields
the configuration whose `DBDsn` is the value of `DB_DSN` and whose secret is the value of
`JWT_SECRET` when that variable is set (environment first, then the file) and the fallback
`unsafe_default_secret` when it is not. `GenerateJWT` signs and `AuthMiddleware` validates
with one and the same process-wide key, `JwtKey`. -/
theorem LoadConfig_secret (dotenv : Option Env) (env : Env) :
    (LoadConfig dotenv env = .error "DB_DSN is not configured"
        ↔ (effectiveValue dotenv env (ascii "DB_DSN") = none
            ∨ effectiveValue dotenv env (ascii "DB_DSN") = some []))
      ∧ (∀ dsn, effectiveValue dotenv env (ascii "DB_DSN") = some dsn → dsn ≠ [] →
          LoadConfig dotenv env =
            .ok { ServerPort :=
                    (effectiveValue dotenv env (ascii "SERVER_PORT")).getD (ascii "8080")
                  DBDsn := dsn
                  JwtSecret :=
                    match effectiveValue dotenv env (ascii "JWT_SECRET") with
                    | some value => value
                    | none => ascii "unsafe_default_secret"
                  PinataJWT := (effectiveValue dotenv env (ascii "PINATA_JWT")).getD [] })
      ∧ (∀ dsn, effectiveValue dotenv env (ascii "DB_DSN") = some dsn → dsn ≠ [] →
          effectiveValue dotenv env (ascii "JWT_SECRET") = none →
          ∃ cfg, LoadConfig dotenv env = .ok cfg
            ∧ cfg.JwtSecret = ascii "unsafe_default_secret")
      ∧ (∀ (J : JwtLib) (now : Nat) (address : Bytes),
          GenerateJWT J now address
            = J.SignedString JwtKey { Address := address, ExpiresAt := some (now + 24 * 3600) })
      ∧ (∀ (J : JwtLib) (now : Nat) (tok : Bytes), 32 ∉ tok →
          AuthMiddleware J now (ascii "Bearer " ++ tok) =
            match ParseWithClaims J JwtKey now tok with
            | none => .abort 401 "Invalid token"
            | some claims => .next claims.Address) := by
  have hok : ∀ dsn, effectiveValue dotenv env (ascii "DB_DSN") = some dsn → dsn ≠ [] →
      LoadConfig dotenv env =
        .ok { ServerPort :=
                (effectiveValue dotenv env (ascii "SERVER_PORT")).getD (ascii "8080")
              DBDsn := dsn
              JwtSecret :=
                match effectiveValue dotenv env (ascii "JWT_SECRET") with
                | some value => value
                | none => ascii "unsafe_default_secret"
              PinataJWT := (effectiveValue dotenv env (ascii "PINATA_JWT")).getD [] } := by
    intro dsn hd hne
    rw [LoadConfig_eq, hd]
    simp only [Option.getD_some, hne, if_false]
    cases effectiveValue dotenv env (ascii "JWT_SECRET") <;> rfl
  refine ⟨?_, hok, ?_, fun _ _ _ => rfl, fun J now tok h => AuthMiddleware_bearer J now tok h⟩
  · rw [LoadConfig_eq]
    cases hd : effectiveValue dotenv env (ascii "DB_DSN") with
    | none => simp
    | some dsn =>
      by_cases hne : dsn = []
      · simp [hne]
      · simp [hne]
  · intro dsn hd hne hj
    refine ⟨_, hok dsn hd hne, ?_⟩
    simp only [hj]

end Web3Driver
